import Mathlib

/-!
Verification development for the concurrent HTTP server (martimgil/concurrent-http-server).

Shallow embedding of the core data structures and operations:
2. the per-worker LRU file cache (src/cache.c),
2. the thread pool and HTTP request handler (src/thread_pool.c),
3. the worker runtime and configuration loader (src/worker.c, src/config.c),
4. the access-log writer with rotation (src/logger.c),
5. the shared statistics counters (src/stats.c, src/shared_mem.c).

The LRU list is modelled as a Lean list with the head playing the role of
lru_head (most recently used) and the last element playing the role of
lru_tail (least recently used).  The hash table of cache.c is an index over
the same set of entries (every entry is in exactly one bucket chain and in
the LRU list, and keys are unique); lookups through the hash table
(hash_key / bucket_find) are therefore modelled as lookups by key in the
LRU list.  Machine integers (size_t, long, int) are modelled as Nat or Int;
the only subtractions performed by the code are guarded by invariants that
keep them non-negative, which the theorems below make explicit.
-/

namespace HttpServer

/-- DJB2 string hash from cache.c (hash_key), on 64-bit unsigned longs.
Only used by the bucket index, which the list model replaces; kept for
completeness of the translation. -/
def hash_key (s : String) : Nat :=
  s.data.foldl (fun h c => ((h <<< 5) + h + c.toNat) % (2 ^ 64)) 5381

/-- A cache entry (struct cache_entry in cache.c).  The prev/next/hnext
links are represented by the entry's position in the cache's entry list. -/
structure CacheEntry where
  key : String
  data : List Nat
  size : Nat
  refcnt : Nat
deriving DecidableEq, Repr

/-- The cache (struct file_cache in cache.c).  `entries` is the LRU list,
head = lru_head (most recent), last = lru_tail (least recent). -/
structure FileCache where
  capacity : Nat
  bytes_used : Nat
  items : Nat
  entries : List CacheEntry
  hits : Nat
  misses : Nat
  evictions : Nat
deriving DecidableEq, Repr

/-- A pinned handle (cache_handle_t in cache.h).  The `_entry` pointer is
modelled by the key of the entry it points to. -/
structure CacheHandle where
  data : Option (List Nat)
  size : Nat
  entryRef : Option String
deriving DecidableEq, Repr

/-- Sum of the sizes of a list of entries. -/
def sumSizes (es : List CacheEntry) : Nat := (es.map (·.size)).sum

/-- Lookup by key: bucket_find through the hash table. -/
def findEntry (es : List CacheEntry) (key : String) : Option CacheEntry :=
  es.find? (fun e => e.key == key)

/-- Remove the (first) entry with the given key from the LRU list; together
with re-consing at the head this models lru_move_front, and alone it models
lru_remove/bucket_remove of a looked-up entry. -/
def eraseKey : List CacheEntry → String → List CacheEntry
  | [], _ => []
  | e :: rest, k => if e.key == k then rest else e :: eraseKey rest k

/-- Walk from lru_tail toward lru_head and remove the first entry with
refcnt == 0 (the scan `e = c->lru_tail; while (e && e->refcnt > 0) e =
e->prev;` in evict_if_needed): returns that entry and the remaining list,
or none when every entry is pinned. -/
def removeLastUnpinned : List CacheEntry → Option (CacheEntry × List CacheEntry)
  | [] => none
  | e :: rest =>
    match removeLastUnpinned rest with
    | some (x, rest') => some (x, e :: rest')
    | none => if e.refcnt == 0 then some (e, rest) else none

/-- One pass of the eviction loop of evict_if_needed (cache.c:183-203),
with explicit fuel; each iteration removes one entry, so fuel equal to the
number of entries computes the exact fixpoint of the C while loop. -/
def evictLoop : Nat → FileCache → FileCache
  | 0, c => c
  | fuel + 1, c =>
    if c.capacity < c.bytes_used ∧ c.entries ≠ [] then
      match removeLastUnpinned c.entries with
      | none => c
      | some (e, rest) =>
        evictLoop fuel
          { c with entries := rest,
                   bytes_used := c.bytes_used - e.size,
                   items := c.items - 1,
                   evictions := c.evictions + 1 }
    else c

/-- evict_if_needed (cache.c:183-203). -/
def evictIfNeeded (c : FileCache) : FileCache := evictLoop c.entries.length c

/-- cache_create (cache.c:209-242): capacity 0 defaults to 1 MiB, all
counters zero-initialised. -/
def cacheCreate (capacity_bytes : Nat) : FileCache :=
  { capacity := if capacity_bytes = 0 then 1048576 else capacity_bytes,
    bytes_used := 0, items := 0, entries := [],
    hits := 0, misses := 0, evictions := 0 }

/-- cache_acquire (cache.c:285-334): on hit move to MRU, bump refcnt, fill
the handle and count a hit; on miss count a miss and return none. -/
def cacheAcquire (c : FileCache) (key : String) : FileCache × Option CacheHandle :=
  match findEntry c.entries key with
  | none => ({ c with misses := c.misses + 1 }, none)
  | some e =>
    ({ c with entries := { e with refcnt := e.refcnt + 1 } :: eraseKey c.entries key,
              hits := c.hits + 1 },
     some { data := some e.data, size := e.size, entryRef := some e.key })

/-- The refcnt decrement of cache_release (cache.c:355-357): the handle's
entry loses one reference, guarded by `if (e->refcnt > 0)`. -/
def decPin (es : List CacheEntry) (k : String) : List CacheEntry :=
  es.map (fun e =>
    if e.key == k then
      (if 0 < e.refcnt then { e with refcnt := e.refcnt - 1 } else e)
    else e)

/-- cache_release (cache.c:344-371): a handle with a null `_entry` returns
immediately; otherwise decrement the pin, clear the handle, and evict when
over capacity. -/
def cacheRelease (c : FileCache) (h : CacheHandle) : FileCache × CacheHandle :=
  match h.entryRef with
  | none => (c, h)
  | some k =>
    let c₁ := { c with entries := decPin c.entries k }
    let c₂ := if c₁.capacity < c₁.bytes_used then evictIfNeeded c₁ else c₁
    (c₂, { data := none, size := 0, entryRef := none })

/-- The critical section of cache_load_file after the file has been read
(cache.c:468-539): double-check for the key under the mutex; reuse an entry
inserted meanwhile (discarding the read buffer), otherwise allocate a new
entry pinned once at the MRU end, charge its size, and evict. `allocOk`
models the success of calloc/strdup. -/
def cacheLoadInsert (c : FileCache) (key : String) (buf : List Nat) (allocOk : Bool) :
    FileCache × Option CacheHandle :=
  match findEntry c.entries key with
  | some e =>
    ({ c with entries := { e with refcnt := e.refcnt + 1 } :: eraseKey c.entries key,
              hits := c.hits + 1 },
     some { data := some e.data, size := e.size, entryRef := some e.key })
  | none =>
    if allocOk then
      let e : CacheEntry := { key := key, data := buf, size := buf.length, refcnt := 1 }
      let c₁ := { c with entries := e :: c.entries,
                         items := c.items + 1,
                         bytes_used := c.bytes_used + buf.length }
      (evictIfNeeded c₁,
       some { data := some buf, size := buf.length, entryRef := some key })
    else (c, none)

/-- cache_load_file (cache.c:449-540).  `readResult` is the outcome of
read_file_into_memory (cache.c:378-440), performed outside the mutex:
none on open/seek/alloc/short-read failure, otherwise the file bytes. -/
def cacheLoadFile (c : FileCache) (key : String) (readResult : Option (List Nat))
    (allocOk : Bool) : FileCache × Option CacheHandle :=
  match cacheAcquire c key with
  | (c₁, some h) => (c₁, some h)
  | (c₁, none) =>
    match readResult with
    | none => (c₁, none)
    | some buf => cacheLoadInsert c₁ key buf allocOk

/-- cache_invalidate (cache.c:548-588): remove the entry iff present and
unpinned. -/
def cacheInvalidate (c : FileCache) (key : String) : Bool × FileCache :=
  match findEntry c.entries key with
  | none => (false, c)
  | some e =>
    if 0 < e.refcnt then (false, c)
    else
      (true, { c with entries := eraseKey c.entries key,
                      bytes_used := c.bytes_used - e.size,
                      items := c.items - 1 })

/-- One cache operation of the public API, for sequences of operations. -/
inductive CacheOp where
  | acquire (key : String)
  | load (key : String) (readResult : Option (List Nat)) (allocOk : Bool)
  | release (h : CacheHandle)
  | invalidate (key : String)
deriving DecidableEq, Repr

/-- State reached after one operation completes. -/
def cacheStep (c : FileCache) : CacheOp → FileCache
  | .acquire k => (cacheAcquire c k).1
  | .load k r a => (cacheLoadFile c k r a).1
  | .release h => (cacheRelease c h).1
  | .invalidate k => (cacheInvalidate c k).2

/-!
Thread pool (src/thread_pool.c).  Jobs carry a client fd; the queue is the
linked list head..tail.  Functions that close file descriptors additionally
return the list of fds they closed during the call.
-/

/-- Thread pool state (thread_pool_t): job queue as a list, head first. -/
structure ThreadPool where
  num_threads : Nat
  shutdown : Bool
  jobs : List Nat
  job_count : Nat
deriving DecidableEq, Repr

/-- create_thread_pool (thread_pool.c:362-402): running state, empty queue,
`num_threads` threads started. -/
def createThreadPool (num_threads : Nat) : ThreadPool :=
  { num_threads := num_threads, shutdown := false, jobs := [], job_count := 0 }

/-- thread_pool_submit (thread_pool.c:479-509): unconditionally append the
job at the tail and bump job_count; the second component is the list of fds
closed during the call (none are). -/
def threadPoolSubmit (p : ThreadPool) (client_fd : Nat) : ThreadPool × List Nat :=
  ({ p with jobs := p.jobs ++ [client_fd], job_count := p.job_count + 1 }, [])

/-- destroy_thread_pool (thread_pool.c:513-547): set shutdown, join the
threads, then close the fd of every job still queued.  The argument is the
pool state at join time; the result is the list of fds closed. -/
def destroyThreadPool (p : ThreadPool) : List Nat :=
  p.jobs

/-!
HTTP request handling (src/thread_pool.c:125-351), with the filesystem and
socket outcomes supplied as an environment.
-/

/-- The `range` field of http_request_t as consumed by send_content
(thread_pool.c:65-94): `absent` (empty string), `malformed` (does not start
with "bytes=" or has no dash after it; is_partial stays 0), or
`bytes s e` (has a dash; each side is the atol value of its substring when
non-empty, none when empty). -/
inductive RangeHdr where
  | absent
  | malformed
  | bytes (start : Option Int) (stop : Option Int)
deriving DecidableEq, Repr

/-- A parsed request (http_request_t). -/
structure HttpRequest where
  method : String
  path : String
  range : RangeHdr
deriving DecidableEq, Repr

/-- leadsWith pat l: pat occurs at the start of l. -/
def leadsWith : List Char → List Char → Bool
  | [], _ => true
  | _ :: _, [] => false
  | p :: ps, c :: cs => p == c && leadsWith ps cs

/-- containsSeq pat l: pat occurs somewhere in l (strstr). -/
def containsSeq (pat : List Char) : List Char → Bool
  | [] => pat.isEmpty
  | c :: cs => leadsWith pat (c :: cs) || containsSeq pat cs

/-- is_path_safe (thread_pool.c:50-53): reject any path containing "..". -/
def isPathSafe (path : String) : Bool :=
  ! containsSeq ['.', '.'] path.data

/-- send_content (thread_pool.c:56-119): returns (status_code, bytes_sent).
start/end are C longs; end is initialised to total_size - 1.  A HEAD
request changes only whether the body is transmitted, not the status or
bytes_sent, so it does not appear here. -/
def sendContent (total_size : Nat) (range : RangeHdr) : Nat × Int :=
  let t : Int := (total_size : Int)
  let sel : Int × Int × Bool :=
    match range with
    | .bytes s e =>
      match s, e with
      | some rs, some re => (rs, re, true)
      | some rs, none => (rs, t - 1, true)
      | none, some re => (t - re, t - 1, true)
      | none, none => (0, t - 1, true)
    | _ => (0, t - 1, false)
  let start := sel.1
  let stop := sel.2.1
  let is_partial := sel.2.2
  if is_partial ∧ (start < 0 ∨ t ≤ stop ∨ stop < start) then (416, 0)
  else if is_partial then (206, stop - start + 1)
  else (200, t)

/-- Environment of one handle_client_request call: outcomes of the socket
read, the parser, and the filesystem probes, in the order the code consults
them. -/
structure HandlerEnv where
  readOk : Bool
  request : Option HttpRequest
  jsonLen : Int
  fileAccessible : Bool
  readResult : Option (List Nat)
  allocOk : Bool
  statRegSize : Option Nat
  fopenOk : Bool
  eacces : Bool
  fallbackReadOk : Bool
deriving DecidableEq, Repr

/-- Observable outcome of one handle_client_request call. -/
structure HandlerResult where
  status : Option Nat
  bytesSent : Int
  statsStatus : Option Nat
  logLines : Nat
  closed : Bool
  cache : FileCache
deriving DecidableEq, Repr

/-- The observable pattern shared by every responding branch of
handle_client_request: the given status is sent, update_stats is called
with that same status, exactly one access-log line is written, and the
connection is closed. -/
def respondsWith (r : HandlerResult) (status : Nat) : Prop :=
  r.status = some status ∧ r.statsStatus = some status ∧
  r.logLines = 1 ∧ r.closed = true

instance (r : HandlerResult) (s : Nat) : Decidable (respondsWith r s) := by
  unfold respondsWith
  infer_instance

/-- handle_client_request (thread_pool.c:125-351). `status` is the
status_code sent (none when the connection is dropped before a response),
`statsStatus` the status passed to update_stats (none when update_stats is
not called), `logLines` how many logger_write calls were made. -/
def handleClientRequest (env : HandlerEnv) (c : FileCache) : HandlerResult :=
  if !env.readOk then
    { status := none, bytesSent := 0, statsStatus := none, logLines := 0,
      closed := true, cache := c }
  else
    match env.request with
    | none =>
      { status := some 400, bytesSent := 0, statsStatus := some 400, logLines := 1,
        closed := true, cache := c }
    | some req =>
      let is_head := req.method == "HEAD"
      if req.method != "GET" && !is_head then
        { status := some 405, bytesSent := 0, statsStatus := some 405, logLines := 1,
          closed := true, cache := c }
      else if req.path == "/api/stats" then
        { status := some 200, bytesSent := env.jsonLen, statsStatus := some 200,
          logLines := 1, closed := true, cache := c }
      else
        let relpath := if req.path == "/" then "/index.html" else req.path
        if !isPathSafe relpath then
          { status := some 403, bytesSent := 0, statsStatus := some 403, logLines := 1,
            closed := true, cache := c }
        else
          match cacheAcquire c relpath with
          | (c₁, some h) =>
            let sc := sendContent h.size req.range
            let c₂ := (cacheRelease c₁ h).1
            { status := some sc.1, bytesSent := sc.2, statsStatus := some sc.1,
              logLines := 1, closed := true, cache := c₂ }
          | (c₁, none) =>
            if !env.fileAccessible then
              { status := some 404, bytesSent := 0, statsStatus := some 404,
                logLines := 1, closed := true, cache := c₁ }
            else
              match cacheLoadFile c₁ relpath env.readResult env.allocOk with
              | (c₂, some h) =>
                let sc := sendContent h.size req.range
                let c₃ := (cacheRelease c₂ h).1
                { status := some sc.1, bytesSent := sc.2, statsStatus := some sc.1,
                  logLines := 1, closed := true, cache := c₃ }
              | (c₂, none) =>
                match env.statRegSize with
                | some fsize =>
                  if env.fopenOk then
                    if env.fallbackReadOk then
                      let sc := sendContent fsize req.range
                      { status := some sc.1, bytesSent := sc.2, statsStatus := some sc.1,
                        logLines := 1, closed := true, cache := c₂ }
                    else
                      { status := some 500, bytesSent := 0, statsStatus := some 500,
                        logLines := 1, closed := true, cache := c₂ }
                  else if env.eacces then
                    { status := some 403, bytesSent := 0, statsStatus := some 403,
                      logLines := 1, closed := true, cache := c₂ }
                  else
                    { status := some 500, bytesSent := 0, statsStatus := some 500,
                      logLines := 1, closed := true, cache := c₂ }
                | none =>
                  { status := some 500, bytesSent := 0, statsStatus := some 500,
                    logLines := 1, closed := true, cache := c₂ }

/-!
Configuration (src/config.c, src/master.c:286-303) and the worker's pool
creation (src/worker.c:232-246).
-/

/-- server_config_t (config.h). -/
structure ServerConfig where
  port : Int
  document_root : String
  num_workers : Int
  threads_per_worker : Int
  max_queue_size : Int
  log_file : String
  cache_size_mb : Int
  timeout_seconds : Int
deriving DecidableEq, Repr

/-- Digit-accumulating loop of atoi. -/
def atoiDigits : List Char → Nat → Nat
  | [], acc => acc
  | c :: rest, acc =>
    if c.isDigit then atoiDigits rest (acc * 10 + (c.toNat - 48)) else acc

/-- C atoi: skip leading whitespace, optional sign, then leading digits. -/
def atoiModel (s : String) : Int :=
  let cs := s.data.dropWhile (fun c =>
    c == ' ' || c == '\t' || c == '\n' || c == '\r' || c == '\x0b' || c == '\x0c')
  match cs with
  | '-' :: rest => -(atoiDigits rest 0 : Int)
  | '+' :: rest => (atoiDigits rest 0 : Int)
  | _ => (atoiDigits cs 0 : Int)

/-- The key dispatch of load_config (config.c:54-107), applied to one
KEY=VALUE pair already split by sscanf. -/
def applyConfigLine (cfg : ServerConfig) (kv : String × String) : ServerConfig :=
  let k := kv.1
  let v := kv.2
  if k == "PORT" then { cfg with port := atoiModel v }
  else if k == "NUM_WORKERS" then { cfg with num_workers := atoiModel v }
  else if k == "THREADS_PER_WORKER" then { cfg with threads_per_worker := atoiModel v }
  else if k == "DOCUMENT_ROOT" then { cfg with document_root := v }
  else if k == "LOG_FILE" then { cfg with log_file := v }
  else if k == "MAX_QUEUE_SIZE" then { cfg with max_queue_size := atoiModel v }
  else if k == "CACHE_SIZE_MB" then { cfg with cache_size_mb := atoiModel v }
  else if k == "TIMEOUT_SECONDS" then { cfg with timeout_seconds := atoiModel v }
  else cfg

/-- load_config (config.c:12-115) over the recognised KEY=VALUE lines of
the file (comment and blank lines skipped). -/
def loadConfig (lines : List (String × String)) (cfg : ServerConfig) : ServerConfig :=
  lines.foldl applyConfigLine cfg

/-- The defaults installed by the master before load_config
(master.c:286-303). -/
def masterDefaults : ServerConfig :=
  { port := 8080, document_root := "www", num_workers := 2,
    threads_per_worker := 10, max_queue_size := 5000,
    log_file := "logs/access.log", cache_size_mb := 64, timeout_seconds := 30 }

/-- The thread pool created by worker_main (worker.c:244):
`create_thread_pool(10, shm, sems)` — the thread count is the literal 10,
independent of the configuration. -/
def workerMainPool (cfg : ServerConfig) : ThreadPool :=
  let _ := cfg
  createThreadPool 10

/-!
Access-log writer (src/logger.c).  The filesystem around the log is a map
from generation number to file content: index 0 is the live file at
g_log_path, index i ≥ 1 the rotated file "path.i".  File content is the
list of written lines; sizes count characters.
-/

/-- The family LOG_FILE, LOG_FILE.1, LOG_FILE.2, ... as a map from
generation to content (none = file does not exist). -/
def LogFS : Type := Nat → Option (List String)

/-- rename(src, dst): moves the file when src exists (overwriting dst),
fails silently otherwise. -/
def renameGen (fs : LogFS) (src dst : Nat) : LogFS :=
  match fs src with
  | none => fs
  | some f => fun i => if i = dst then some f else if i = src then none else fs i

/-- unlink(path.src). -/
def unlinkGen (fs : LogFS) (src : Nat) : LogFS :=
  fun i => if i = src then none else fs i

/-- Size in bytes of a log file's content (fstat st_size). -/
def logFileSize (f : List String) : Nat := (f.map String.length).sum

/-- LOG_MAX_SIZE (logger.c:31): 10 MiB. -/
def LOG_MAX_SIZE : Nat := 10 * 1024 * 1024

/-- rotate_logs (logger.c:94-127): close the fd, unlink path.5, rename
path.i to path.(i+1) for i from 4 down to 1, rename path to path.1, reopen
path (O_CREAT|O_WRONLY|O_APPEND creates it empty when absent). -/
def rotateLogs (fs : LogFS) : LogFS :=
  let fs₁ := unlinkGen fs 5
  let fs₂ := renameGen fs₁ 4 5
  let fs₃ := renameGen fs₂ 3 4
  let fs₄ := renameGen fs₃ 2 3
  let fs₅ := renameGen fs₄ 1 2
  let fs₆ := renameGen fs₅ 0 1
  fun i => if i = 0 then some ((fs₆ 0).getD []) else fs₆ i

/-- The line formatted by logger_write (logger.c:226-237):
ip SP [date] SP "method SP path" SP status SP bytes SP durationms NL. -/
def formatLogLine (ip date method path : String) (status : Int) (bytes : Nat)
    (duration_ms : Int) : String :=
  ip ++ " [" ++ date ++ "] \"" ++ method ++ " " ++ path ++ "\" " ++
    toString status ++ " " ++ toString bytes ++ " " ++ toString duration_ms ++ "ms\n"

/-- Append one line to the live log file through the open fd (write_all,
logger.c:47-70, which loops over partial writes and EINTR until the whole
line is in the file). -/
def appendLogLine (fs : LogFS) (line : String) : LogFS :=
  fun i => if i = 0 then some ((fs 0).getD [] ++ [line]) else fs i

/-- logger_write (logger.c:185-249), between sem_wait and sem_post: rotate
when the live file has reached LOG_MAX_SIZE, then format the line and write
it in full.  `date` stands for the strftime result. -/
def loggerWrite (fs : LogFS) (ip date method path : String) (status : Int)
    (bytes_sent : Nat) (duration_ms : Int) : LogFS :=
  let size_now := logFileSize ((fs 0).getD [])
  let fs₁ := if LOG_MAX_SIZE ≤ size_now then rotateLogs fs else fs
  appendLogLine fs₁ (formatLogLine ip date method path status bytes_sent duration_ms)

/-!
Shared statistics (src/stats.c, src/shared_mem.c).
-/

/-- server_stats_t (shared_mem.h:6-14). -/
structure ServerStats where
  total_requests : Int
  bytes_transferred : Int
  status_200 : Int
  status_404 : Int
  status_500 : Int
  active_connections : Int
  total_response_time_ms : Int
deriving DecidableEq, Repr

/-- create_shared_memory (shared_mem.c:57-64) memsets the region to zero. -/
def initialStats : ServerStats :=
  { total_requests := 0, bytes_transferred := 0, status_200 := 0, status_404 := 0,
    status_500 := 0, active_connections := 0, total_response_time_ms := 0 }

/-- update_stats (stats.c:11-35), between sem_wait and sem_post. -/
def updateStats (s : ServerStats) (status_code : Int) (bytes : Int)
    (time_taken_ms : Int) : ServerStats :=
  let s₁ := { s with total_requests := s.total_requests + 1,
                     bytes_transferred := s.bytes_transferred + bytes,
                     total_response_time_ms := s.total_response_time_ms + time_taken_ms }
  if status_code = 200 then { s₁ with status_200 := s₁.status_200 + 1 }
  else if status_code = 404 then { s₁ with status_404 := s₁.status_404 + 1 }
  else if status_code = 500 then { s₁ with status_500 := s₁.status_500 + 1 }
  else s₁

/-!
Concrete fixtures used by witnesses and counterexamples.
-/

/-- A cache over capacity with one pinned and one unpinned entry. -/
def witnessCacheC1 : FileCache :=
  { capacity := 15, bytes_used := 30, items := 2,
    entries := [{ key := "/p", data := [0], size := 10, refcnt := 1 },
                { key := "/q", data := [1], size := 20, refcnt := 0 }],
    hits := 3, misses := 4, evictions := 5 }

/-- A cache holding one unpinned entry for "/a". -/
def witnessCacheA : FileCache :=
  { capacity := 100, bytes_used := 3, items := 1,
    entries := [{ key := "/a", data := [1, 2, 3], size := 3, refcnt := 0 }],
    hits := 0, misses := 1, evictions := 0 }

/-- The cache produced by loading "/a" (3 bytes) into a fresh 100-byte
cache: one entry pinned once by the returned handle, and hits still 0 —
a state no cache_acquire call can produce. -/
def witnessCacheFreshLoad : FileCache :=
  { capacity := 100, bytes_used := 3, items := 1,
    entries := [{ key := "/a", data := [1, 2, 3], size := 3, refcnt := 1 }],
    hits := 0, misses := 1, evictions := 0 }

/-- witnessCacheA after cache_acquire of "/a": pin bumped to 1, one hit. -/
def witnessCacheApinned : FileCache :=
  { capacity := 100, bytes_used := 3, items := 1,
    entries := [{ key := "/a", data := [1, 2, 3], size := 3, refcnt := 1 }],
    hits := 1, misses := 1, evictions := 0 }

/-- The handle cache_acquire fills for witnessCacheA / "/a". -/
def witnessHandleA : CacheHandle :=
  { data := some [1, 2, 3], size := 3, entryRef := some "/a" }

/-- A default handler environment: request readable, everything else set
per test case. -/
def witnessEnvBase : HandlerEnv :=
  { readOk := true, request := none, jsonLen := 0, fileAccessible := true,
    readResult := none, allocOk := true, statRegSize := none, fopenOk := true,
    eacces := false, fallbackReadOk := false }

/-- A GET whose cache load fails and whose direct fopen fails with EACCES. -/
def witnessEnvEacces : HandlerEnv :=
  { witnessEnvBase with
    request := some { method := "GET", path := "/x.txt", range := .absent },
    statRegSize := some 5, fopenOk := false, eacces := true }

/-- A thread pool already shut down. -/
def witnessPoolDown : ThreadPool :=
  { num_threads := 10, shutdown := true, jobs := [], job_count := 0 }

/-- A line of exactly LOG_MAX_SIZE characters. -/
def bigLogLine : String := { data := List.replicate LOG_MAX_SIZE 'a' }

/-- A log filesystem whose live file has reached the rotation threshold,
with one existing rotated generation. -/
def witnessLogBig : LogFS :=
  fun i => if i = 0 then some [bigLogLine]
           else if i = 1 then some ["old line\n"] else none

/-- A log filesystem with a small (empty) live file. -/
def witnessLogSmall : LogFS :=
  fun i => if i = 0 then some [] else none

/-!
Helper lemmas about the cache model.
-/

theorem sumSizes_nil : sumSizes [] = 0 := rfl

theorem sumSizes_cons (e : CacheEntry) (l : List CacheEntry) :
    sumSizes (e :: l) = e.size + sumSizes l := by
  simp [sumSizes]

theorem sumSizes_append (l₁ l₂ : List CacheEntry) :
    sumSizes (l₁ ++ l₂) = sumSizes l₁ + sumSizes l₂ := by
  simp [sumSizes]

/-- A successful lookup splits the list at the first entry with the key,
and eraseKey removes exactly that entry. -/
theorem findEntry_eq_some {es : List CacheEntry} {k : String} {e : CacheEntry}
    (h : findEntry es k = some e) :
    e.key = k ∧ ∃ l₁ l₂, es = l₁ ++ e :: l₂ ∧ eraseKey es k = l₁ ++ l₂ := by
  induction es with
  | nil => simp [findEntry] at h
  | cons e₀ rest ih =>
    by_cases h₀ : (e₀.key == k) = true
    · have he : e₀ = e := by
        simp only [findEntry, List.find?_cons, h₀, Option.some.injEq] at h
        exact h
      subst he
      refine ⟨by simpa using h₀, [], rest, rfl, ?_⟩
      simp [eraseKey, h₀]
    · have h' : findEntry rest k = some e := by
        rw [Bool.not_eq_true] at h₀
        simpa only [findEntry, List.find?_cons, h₀] using h
      obtain ⟨hk, l₁, l₂, hsplit, herase⟩ := ih h'
      refine ⟨hk, e₀ :: l₁, l₂, by simp [hsplit], ?_⟩
      simp [eraseKey, h₀, herase]

theorem findEntry_eq_none {es : List CacheEntry} {k : String}
    (h : findEntry es k = none) : ∀ e ∈ es, e.key ≠ k := by
  intro e he
  have := List.find?_eq_none.mp h e he
  simpa using this

theorem decPin_length (es : List CacheEntry) (k : String) :
    (decPin es k).length = es.length := by
  simp [decPin]

theorem decPin_map_size (es : List CacheEntry) (k : String) :
    (decPin es k).map (·.size) = es.map (·.size) := by
  induction es with
  | nil => rfl
  | cons e rest ih =>
    simp only [decPin, List.map_cons] at ih ⊢
    refine congrArg₂ (· :: ·) ?_ ih
    by_cases h : (e.key == k) = true <;> by_cases h' : 0 < e.refcnt <;> simp [h, h']

theorem decPin_sumSizes (es : List CacheEntry) (k : String) :
    sumSizes (decPin es k) = sumSizes es := by
  simp [sumSizes, decPin_map_size]

/-- Entries whose pin count is already zero are untouched by the guarded
decrement of cache_release. -/
theorem decPin_zero_mem {es : List CacheEntry} {e : CacheEntry} (he : e ∈ es)
    (hz : e.refcnt = 0) (k : String) : e ∈ decPin es k := by
  unfold decPin
  exact List.mem_map.mpr ⟨e, he, by simp [hz]⟩

/-- Looking up the handle's key after the release decrement finds the same
entry with its pin count reduced by one (or untouched when it was zero). -/
theorem findEntry_decPin {es : List CacheEntry} {k : String} {e : CacheEntry}
    (hfind : findEntry es k = some e) :
    findEntry (decPin es k) k =
      some (if 0 < e.refcnt then { e with refcnt := e.refcnt - 1 } else e) := by
  induction es with
  | nil => simp [findEntry] at hfind
  | cons e₀ rest ih =>
    have hdec : decPin (e₀ :: rest) k
        = (if e₀.key == k then
            (if 0 < e₀.refcnt then { e₀ with refcnt := e₀.refcnt - 1 } else e₀)
          else e₀) :: decPin rest k := rfl
    by_cases h : (e₀.key == k) = true
    · have he : e₀ = e := by
        simp only [findEntry, List.find?_cons, h, Option.some.injEq] at hfind
        exact hfind
      subst he
      rw [hdec, if_pos h]
      by_cases h' : 0 < e₀.refcnt
      · rw [if_pos h']
        have hkey : (({ e₀ with refcnt := e₀.refcnt - 1 } : CacheEntry).key == k)
            = true := h
        simp only [findEntry, List.find?_cons, hkey]
      · rw [if_neg h']
        simp only [findEntry, List.find?_cons, h]
    · have hfalse : (e₀.key == k) = false := by
        simpa using h
      have hfind' : findEntry rest k = some e := by
        simp only [findEntry, List.find?_cons, hfalse] at hfind
        exact hfind
      rw [hdec, if_neg h]
      simp only [findEntry, List.find?_cons, hfalse]
      exact ih hfind'

theorem removeLastUnpinned_none_iff (es : List CacheEntry) :
    removeLastUnpinned es = none ↔ ∀ e ∈ es, e.refcnt ≠ 0 := by
  induction es with
  | nil => simp [removeLastUnpinned]
  | cons e rest ih =>
    simp only [removeLastUnpinned]
    constructor
    · intro h
      cases hr : removeLastUnpinned rest with
      | some p => rw [hr] at h; cases p; simp at h
      | none =>
        rw [hr] at h
        by_cases hz : (e.refcnt == 0) = true
        · simp [hz] at h
        · intro x hx
          rcases List.mem_cons.mp hx with rfl | hx'
          · simpa using hz
          · exact (ih.mp hr) x hx'
    · intro h
      have hrest : removeLastUnpinned rest = none :=
        ih.mpr (fun x hx => h x (List.mem_cons_of_mem _ hx))
      rw [hrest]
      have : (e.refcnt == 0) = false := by
        simpa using h e (List.mem_cons_self e rest)
      simp [this]

/-- The entry removed by the eviction scan is the last unpinned entry of
the LRU list: everything closer to the tail is pinned. -/
theorem removeLastUnpinned_eq_some {es : List CacheEntry} {e : CacheEntry}
    {rest : List CacheEntry} (h : removeLastUnpinned es = some (e, rest)) :
    e.refcnt = 0 ∧
    ∃ l₁ l₂, es = l₁ ++ e :: l₂ ∧ rest = l₁ ++ l₂ ∧ ∀ x ∈ l₂, x.refcnt ≠ 0 := by
  induction es generalizing e rest with
  | nil => simp [removeLastUnpinned] at h
  | cons e₀ rest₀ ih =>
    simp only [removeLastUnpinned] at h
    cases hr : removeLastUnpinned rest₀ with
    | some p =>
      obtain ⟨x, rest'⟩ := p
      rw [hr] at h
      simp only [Option.some.injEq, Prod.mk.injEq] at h
      obtain ⟨rfl, rfl⟩ := h
      obtain ⟨hz, l₁, l₂, hsplit, hrest, hpin⟩ := ih hr
      exact ⟨hz, e₀ :: l₁, l₂, by simp [hsplit], by simp [hrest], hpin⟩
    | none =>
      rw [hr] at h
      by_cases hz : (e₀.refcnt == 0) = true
      · rw [if_pos hz] at h
        injection h with h'
        cases h'
        exact ⟨by simpa using hz, [], rest₀, rfl, rfl,
          (removeLastUnpinned_none_iff rest₀).mp hr⟩
      · simp [hz] at h

theorem evictLoop_succ_stop (fuel : Nat) (c : FileCache)
    (hcond : ¬(c.capacity < c.bytes_used ∧ c.entries ≠ [])) :
    evictLoop (fuel + 1) c = c := by
  rw [evictLoop, if_neg hcond]

theorem evictLoop_succ_none (fuel : Nat) (c : FileCache)
    (hcond : c.capacity < c.bytes_used ∧ c.entries ≠ [])
    (hrm : removeLastUnpinned c.entries = none) :
    evictLoop (fuel + 1) c = c := by
  rw [evictLoop, if_pos hcond, hrm]

theorem evictLoop_succ_some (fuel : Nat) (c : FileCache) (e : CacheEntry)
    (rest : List CacheEntry)
    (hcond : c.capacity < c.bytes_used ∧ c.entries ≠ [])
    (hrm : removeLastUnpinned c.entries = some (e, rest)) :
    evictLoop (fuel + 1) c =
      evictLoop fuel
        { c with entries := rest,
                 bytes_used := c.bytes_used - e.size,
                 items := c.items - 1,
                 evictions := c.evictions + 1 } := by
  rw [evictLoop, if_pos hcond, hrm]

/-- Full behaviour of the eviction loop, provided the accounting fields are
consistent on entry and the fuel covers the number of entries: accounting
stays consistent, capacity and hit/miss counters are untouched, the
surviving entries are a subsequence of the original LRU list, no pinned
entry is ever removed, the loop stops only within capacity or with every
survivor pinned, and the eviction counter counts the removals. -/
theorem evictLoop_spec (fuel : Nat) :
    ∀ c : FileCache,
    c.bytes_used = sumSizes c.entries →
    c.items = c.entries.length →
    c.entries.length ≤ fuel →
    (evictLoop fuel c).bytes_used = sumSizes (evictLoop fuel c).entries ∧
    (evictLoop fuel c).items = (evictLoop fuel c).entries.length ∧
    (evictLoop fuel c).capacity = c.capacity ∧
    (evictLoop fuel c).hits = c.hits ∧
    (evictLoop fuel c).misses = c.misses ∧
    (evictLoop fuel c).entries.Sublist c.entries ∧
    (∀ e ∈ c.entries, e.refcnt ≠ 0 → e ∈ (evictLoop fuel c).entries) ∧
    ((evictLoop fuel c).bytes_used ≤ c.capacity ∨
      ∀ e ∈ (evictLoop fuel c).entries, e.refcnt ≠ 0) ∧
    (evictLoop fuel c).evictions
      = c.evictions + (c.entries.length - (evictLoop fuel c).entries.length) := by
  induction fuel with
  | zero =>
    intro c hb hi hf
    have hnil : c.entries = [] := List.length_eq_zero.mp (Nat.le_zero.mp hf)
    have hb0 : c.bytes_used = 0 := by rw [hb, hnil]; rfl
    simp [evictLoop, hnil, hb0, hi, sumSizes_nil, List.Sublist.refl]
  | succ fuel ih =>
    intro c hb hi hf
    by_cases hcond : c.capacity < c.bytes_used ∧ c.entries ≠ []
    · cases hrm : removeLastUnpinned c.entries with
      | none =>
        rw [evictLoop_succ_none fuel c hcond hrm]
        refine ⟨hb, hi, rfl, rfl, rfl, List.Sublist.refl _, fun e he _ => he, ?_, by omega⟩
        exact Or.inr ((removeLastUnpinned_none_iff c.entries).mp hrm)
      | some p =>
        obtain ⟨e, rest⟩ := p
        rw [evictLoop_succ_some fuel c e rest hcond hrm]
        obtain ⟨hz, l₁, l₂, hsplit, hrest, hpin⟩ := removeLastUnpinned_eq_some hrm
        have hsum : sumSizes c.entries = sumSizes l₁ + (e.size + sumSizes l₂) := by
          rw [hsplit, sumSizes_append, sumSizes_cons]
        have hsumr : sumSizes rest = sumSizes l₁ + sumSizes l₂ := by
          rw [hrest, sumSizes_append]
        have hlen : c.entries.length = l₁.length + (l₂.length + 1) := by
          rw [hsplit]; simp
        have hlenr : rest.length = l₁.length + l₂.length := by
          rw [hrest]; simp
        set c₁ : FileCache :=
          { c with entries := rest,
                   bytes_used := c.bytes_used - e.size,
                   items := c.items - 1,
                   evictions := c.evictions + 1 } with hc₁
        have hb₁ : c₁.bytes_used = sumSizes c₁.entries := by
          simp only [hc₁]
          rw [hb, hsum, hsumr]
          omega
        have hi₁ : c₁.items = c₁.entries.length := by
          simp only [hc₁]
          rw [hi, hlen, hlenr]
          omega
        have hf₁ : c₁.entries.length ≤ fuel := by
          simp only [hc₁]
          omega
        obtain ⟨ib, ii, icap, ihits, imiss, isub, ipinned, istop, ievict⟩ :=
          ih c₁ hb₁ hi₁ hf₁
        have hsubrest : rest.Sublist c.entries := by
          rw [hrest, hsplit]
          exact (List.sublist_cons_self e l₂).append_left l₁
        refine ⟨ib, ii, icap, ihits, imiss, isub.trans hsubrest, ?_, ?_, ?_⟩
        · intro x hx hxpin
          have hxrest : x ∈ rest := by
            rw [hsplit] at hx
            rcases List.mem_append.mp hx with h₁ | h₂
            · rw [hrest]; exact List.mem_append.mpr (Or.inl h₁)
            · rcases List.mem_cons.mp h₂ with rfl | h₃
              · exact absurd hz hxpin
              · rw [hrest]; exact List.mem_append.mpr (Or.inr h₃)
          exact ipinned x hxrest hxpin
        · rcases istop with h | h
          · exact Or.inl (by simpa [hc₁] using h)
          · exact Or.inr h
        · have hle := isub.length_le
          simp only [hc₁] at ievict hle ⊢
          omega
    · rw [evictLoop_succ_stop fuel c hcond]
      refine ⟨hb, hi, rfl, rfl, rfl, List.Sublist.refl _, fun e he _ => he, ?_, by omega⟩
      rcases Decidable.not_and_iff_or_not.mp hcond with h | h
      · exact Or.inl (by omega)
      · have hnil : c.entries = [] := Decidable.not_not.mp h
        have : c.bytes_used = 0 := by rw [hb, hnil]; rfl
        exact Or.inl (by omega)

/-- evict_if_needed: the loop run with fuel equal to the number of
entries, which is exactly enough. -/
theorem evictIfNeeded_spec (c : FileCache)
    (hb : c.bytes_used = sumSizes c.entries)
    (hi : c.items = c.entries.length) :
    (evictIfNeeded c).bytes_used = sumSizes (evictIfNeeded c).entries ∧
    (evictIfNeeded c).items = (evictIfNeeded c).entries.length ∧
    (evictIfNeeded c).capacity = c.capacity ∧
    (evictIfNeeded c).hits = c.hits ∧
    (evictIfNeeded c).misses = c.misses ∧
    (evictIfNeeded c).entries.Sublist c.entries ∧
    (∀ e ∈ c.entries, e.refcnt ≠ 0 → e ∈ (evictIfNeeded c).entries) ∧
    ((evictIfNeeded c).bytes_used ≤ c.capacity ∨
      ∀ e ∈ (evictIfNeeded c).entries, e.refcnt ≠ 0) ∧
    (evictIfNeeded c).evictions
      = c.evictions + (c.entries.length - (evictIfNeeded c).entries.length) :=
  evictLoop_spec c.entries.length c hb hi (Nat.le_refl _)

/-- Unconditionally (no accounting hypotheses), the eviction loop only
removes entries: the survivors are a subsequence of the original list. -/
theorem evictLoop_entries_sublist (fuel : Nat) :
    ∀ c : FileCache, (evictLoop fuel c).entries.Sublist c.entries := by
  induction fuel with
  | zero =>
    intro c
    exact List.Sublist.refl _
  | succ fuel ih =>
    intro c
    by_cases hcond : c.capacity < c.bytes_used ∧ c.entries ≠ []
    · cases hrm : removeLastUnpinned c.entries with
      | none =>
        rw [evictLoop_succ_none fuel c hcond hrm]
      | some p =>
        obtain ⟨e, rest⟩ := p
        rw [evictLoop_succ_some fuel c e rest hcond hrm]
        obtain ⟨-, l₁, l₂, hsplit, hrest, -⟩ := removeLastUnpinned_eq_some hrm
        have hsubrest : rest.Sublist c.entries := by
          rw [hrest, hsplit]
          exact (List.sublist_cons_self e l₂).append_left l₁
        exact (ih _).trans hsubrest
    · rw [evictLoop_succ_stop fuel c hcond]

/-- Unconditionally, a pinned entry survives the eviction loop. -/
theorem evictLoop_pinned_mem (fuel : Nat) :
    ∀ (c : FileCache) (e : CacheEntry), e ∈ c.entries → e.refcnt ≠ 0 →
      e ∈ (evictLoop fuel c).entries := by
  induction fuel with
  | zero =>
    intro c e he _
    exact he
  | succ fuel ih =>
    intro c e he hpin
    by_cases hcond : c.capacity < c.bytes_used ∧ c.entries ≠ []
    · cases hrm : removeLastUnpinned c.entries with
      | none =>
        rw [evictLoop_succ_none fuel c hcond hrm]
        exact he
      | some p =>
        obtain ⟨x, rest⟩ := p
        rw [evictLoop_succ_some fuel c x rest hcond hrm]
        obtain ⟨hz, l₁, l₂, hsplit, hrest, -⟩ := removeLastUnpinned_eq_some hrm
        have hmem : e ∈ rest := by
          rw [hsplit] at he
          rcases List.mem_append.mp he with h₁ | h₂
          · rw [hrest]; exact List.mem_append.mpr (Or.inl h₁)
          · rcases List.mem_cons.mp h₂ with rfl | h₃
            · exact absurd hz hpin
            · rw [hrest]; exact List.mem_append.mpr (Or.inr h₃)
        exact ih _ e hmem hpin
    · rw [evictLoop_succ_stop fuel c hcond]
      exact he

/-- In a subsequence of `a :: L` that still contains `a`, where `a` is the
only entry whose key is `k`, the lookup by `k` finds `a`. -/
theorem findEntry_sublist_head {l L : List CacheEntry} {a : CacheEntry} {k : String}
    (hsub : l.Sublist (a :: L)) (hmem : a ∈ l) (hkey : (a.key == k) = true)
    (hL : ∀ x ∈ L, x.key ≠ k) :
    findEntry l k = some a := by
  cases hsub with
  | cons _ h =>
    exact absurd (beq_iff_eq.mp hkey) (hL a (h.subset hmem))
  | cons₂ _ _ =>
    simp only [findEntry, List.find?_cons, hkey]

/-- The two invariants of the claim, as one predicate: the byte and item
accounting matches the entry list, and an entirely unpinned cache is
within capacity. -/
def CacheWF (c : FileCache) : Prop :=
  c.bytes_used = sumSizes c.entries ∧
  c.items = c.entries.length ∧
  ((∀ e ∈ c.entries, e.refcnt = 0) → c.bytes_used ≤ c.capacity)

theorem cacheAcquire_miss {c : FileCache} {k : String}
    (h : findEntry c.entries k = none) :
    cacheAcquire c k = ({ c with misses := c.misses + 1 }, none) := by
  simp [cacheAcquire, h]

theorem cacheAcquire_hit {c : FileCache} {k : String} {e : CacheEntry}
    (h : findEntry c.entries k = some e) :
    cacheAcquire c k =
      ({ c with entries := { e with refcnt := e.refcnt + 1 } :: eraseKey c.entries k,
                hits := c.hits + 1 },
       some { data := some e.data, size := e.size, entryRef := some e.key }) := by
  simp [cacheAcquire, h]

/-- The state after a hit (cache_acquire, or the double-check branch of
cache_load_file) is well-formed: moving an entry to the head and bumping
its pin changes no size, and leaves the moved entry pinned. -/
theorem wf_hit {c : FileCache} {k : String} {e : CacheEntry}
    (hfind : findEntry c.entries k = some e) (h : CacheWF c) :
    CacheWF { c with
      entries := { e with refcnt := e.refcnt + 1 } :: eraseKey c.entries k,
      hits := c.hits + 1 } := by
  obtain ⟨hb, hi, _⟩ := h
  obtain ⟨-, l₁, l₂, hsplit, herase⟩ := findEntry_eq_some hfind
  refine ⟨?_, ?_, ?_⟩
  · show c.bytes_used =
      sumSizes ({ e with refcnt := e.refcnt + 1 } :: eraseKey c.entries k)
    rw [herase, hb, hsplit]
    simp only [sumSizes_cons, sumSizes_append]
    omega
  · show c.items =
      ({ e with refcnt := e.refcnt + 1 } :: eraseKey c.entries k).length
    rw [herase, hi, hsplit]
    simp only [List.length_append, List.length_cons]
    omega
  · intro hall
    have := hall _ (List.mem_cons_self _ _)
    simp at this

theorem wf_cacheAcquire (c : FileCache) (k : String) (h : CacheWF c) :
    CacheWF (cacheAcquire c k).1 := by
  cases hfind : findEntry c.entries k with
  | none =>
    rw [cacheAcquire_miss hfind]
    exact ⟨h.1, h.2.1, h.2.2⟩
  | some e =>
    rw [cacheAcquire_hit hfind]
    exact wf_hit hfind h

/-- The state after the release decrement is accounted like the original
and, when it triggers eviction, ends within capacity or entirely pinned. -/
theorem wf_cacheRelease (c : FileCache) (h : CacheHandle) (hwf : CacheWF c) :
    CacheWF (cacheRelease c h).1 := by
  obtain ⟨hb, hi, hcap⟩ := hwf
  cases hh : h.entryRef with
  | none => simpa [cacheRelease, hh] using ⟨hb, hi, hcap⟩
  | some k =>
    have hb₁ : sumSizes (decPin c.entries k) = sumSizes c.entries :=
      decPin_sumSizes c.entries k
    have hi₁ : (decPin c.entries k).length = c.entries.length :=
      decPin_length c.entries k
    simp only [cacheRelease, hh]
    by_cases hover : c.capacity < c.bytes_used
    · simp only [if_pos hover]
      obtain ⟨ib, ii, icap, -, -, -, -, istop, -⟩ :=
        evictIfNeeded_spec { c with entries := decPin c.entries k }
          (by simpa [hb₁] using hb) (by simpa [hi₁] using hi)
      refine ⟨ib, ii, ?_⟩
      intro hall
      rcases istop with hle | hpin
      · rw [icap]
        exact hle
      · cases hent : (evictIfNeeded { c with entries := decPin c.entries k }).entries with
        | nil =>
          rw [ib, hent, sumSizes_nil]
          exact Nat.zero_le _
        | cons x t =>
          have hx : x ∈ (evictIfNeeded { c with entries := decPin c.entries k }).entries := by
            rw [hent]; exact List.mem_cons_self x t
          exact absurd (hall x hx) (hpin x hx)
    · simp only [if_neg hover]
      exact ⟨by simpa [hb₁] using hb, by simpa [hi₁] using hi,
        fun _ => Nat.le_of_not_lt hover⟩

theorem wf_cacheLoadInsert (c : FileCache) (k : String) (buf : List Nat)
    (allocOk : Bool) (hwf : CacheWF c) :
    CacheWF (cacheLoadInsert c k buf allocOk).1 := by
  obtain ⟨hb, hi, hcap⟩ := hwf
  cases hfind : findEntry c.entries k with
  | some e =>
    simp only [cacheLoadInsert, hfind]
    exact wf_hit hfind ⟨hb, hi, hcap⟩
  | none =>
    cases ha : allocOk with
    | false => simpa [cacheLoadInsert, hfind, ha] using ⟨hb, hi, hcap⟩
    | true =>
      simp only [cacheLoadInsert, hfind, ha]
      set e : CacheEntry := { key := k, data := buf, size := buf.length, refcnt := 1 }
        with he
      set c₁ : FileCache :=
        { c with entries := e :: c.entries,
                 items := c.items + 1,
                 bytes_used := c.bytes_used + buf.length } with hc₁
      have hb₁ : c₁.bytes_used = sumSizes c₁.entries := by
        have hes : e.size = buf.length := by rw [he]
        simp only [hc₁, sumSizes_cons]
        omega
      have hi₁ : c₁.items = c₁.entries.length := by
        simp only [hc₁]
        rw [hi]
        simp
      obtain ⟨ib, ii, icap, -, -, -, ipinned, -, -⟩ := evictIfNeeded_spec c₁ hb₁ hi₁
      refine ⟨ib, ii, ?_⟩
      intro hall
      have hmem : e ∈ (evictIfNeeded c₁).entries := by
        refine ipinned e ?_ (by simp [he])
        simp [hc₁]
      have := hall e hmem
      simp [he] at this

theorem wf_cacheLoadFile (c : FileCache) (k : String) (r : Option (List Nat))
    (a : Bool) (hwf : CacheWF c) : CacheWF (cacheLoadFile c k r a).1 := by
  cases hfind : findEntry c.entries k with
  | some e =>
    simp only [cacheLoadFile, cacheAcquire_hit hfind]
    exact wf_hit hfind hwf
  | none =>
    have hmiss : CacheWF { c with misses := c.misses + 1 } :=
      ⟨hwf.1, hwf.2.1, hwf.2.2⟩
    cases r with
    | none => simpa [cacheLoadFile, cacheAcquire_miss hfind] using hmiss
    | some buf =>
      simp only [cacheLoadFile, cacheAcquire_miss hfind]
      exact wf_cacheLoadInsert _ k buf a hmiss

theorem wf_cacheInvalidate (c : FileCache) (k : String) (hwf : CacheWF c) :
    CacheWF (cacheInvalidate c k).2 := by
  obtain ⟨hb, hi, hcap⟩ := hwf
  cases hfind : findEntry c.entries k with
  | none => simpa [cacheInvalidate, hfind] using ⟨hb, hi, hcap⟩
  | some e =>
    by_cases hpin : 0 < e.refcnt
    · simpa [cacheInvalidate, hfind, hpin] using ⟨hb, hi, hcap⟩
    · obtain ⟨-, l₁, l₂, hsplit, herase⟩ := findEntry_eq_some hfind
      have hz : e.refcnt = 0 := Nat.eq_zero_of_not_pos hpin
      simp only [cacheInvalidate, hfind, if_neg hpin]
      have hsum : sumSizes c.entries = sumSizes l₁ + (e.size + sumSizes l₂) := by
        rw [hsplit, sumSizes_append, sumSizes_cons]
      refine ⟨?_, ?_, ?_⟩
      · show c.bytes_used - e.size = sumSizes (eraseKey c.entries k)
        rw [herase, sumSizes_append, hb, hsum]
        omega
      · show c.items - 1 = (eraseKey c.entries k).length
        rw [herase, hi, hsplit]
        simp
      · intro hall
        show c.bytes_used - e.size ≤ c.capacity
        have : ∀ x ∈ c.entries, x.refcnt = 0 := by
          intro x hx
          rw [hsplit] at hx
          rcases List.mem_append.mp hx with h₁ | h₂
          · exact hall x (by rw [herase]; exact List.mem_append.mpr (Or.inl h₁))
          · rcases List.mem_cons.mp h₂ with rfl | h₃
            · exact hz
            · exact hall x (by rw [herase]; exact List.mem_append.mpr (Or.inr h₃))
        exact (Nat.sub_le _ _).trans (hcap this)

theorem wf_cacheStep (c : FileCache) (op : CacheOp) (hwf : CacheWF c) :
    CacheWF (cacheStep c op) := by
  cases op with
  | acquire k => exact wf_cacheAcquire c k hwf
  | load k r a => exact wf_cacheLoadFile c k r a hwf
  | release h => exact wf_cacheRelease c h hwf
  | invalidate k => exact wf_cacheInvalidate c k hwf

theorem wf_foldl (ops : List CacheOp) (c : FileCache) (hwf : CacheWF c) :
    CacheWF (ops.foldl cacheStep c) := by
  induction ops generalizing c with
  | nil => exact hwf
  | cons op rest ih => exact ih _ (wf_cacheStep c op hwf)

theorem wf_cacheCreate (cap : Nat) : CacheWF (cacheCreate cap) := by
  refine ⟨rfl, rfl, fun _ => Nat.zero_le _⟩

theorem cacheInvalidate_pinned {c : FileCache} {k : String} {e : CacheEntry}
    (hfind : findEntry c.entries k = some e) (hpin : 0 < e.refcnt) :
    cacheInvalidate c k = (false, c) := by
  simp [cacheInvalidate, hfind, hpin]

/-- Every handle cache_load_file returns points at an entry of the
returned state that carries that handle's pin: the fast-path hit returns
the bumped entry, and the insert branch returns the new entry with pin
count 1, which survives the post-insert eviction. -/
theorem cacheLoadFile_handle_pinned (c : FileCache) (k : String)
    (r : Option (List Nat)) (a : Bool) (c' : FileCache) (h : CacheHandle)
    (hload : cacheLoadFile c k r a = (c', some h)) :
    h.entryRef = some k ∧
    ∃ e, findEntry c'.entries k = some e ∧ 0 < e.refcnt := by
  cases hfind : findEntry c.entries k with
  | some e₀ =>
    obtain ⟨hkey, l₁, l₂, hsplit, herase⟩ := findEntry_eq_some hfind
    simp only [cacheLoadFile, cacheAcquire_hit hfind, Prod.mk.injEq,
      Option.some.injEq] at hload
    obtain ⟨rfl, rfl⟩ := hload
    have hkb : (({ e₀ with refcnt := e₀.refcnt + 1 } : CacheEntry).key == k)
        = true := by
      simpa using hkey
    refine ⟨by simpa using hkey, { e₀ with refcnt := e₀.refcnt + 1 }, ?_,
      Nat.succ_pos _⟩
    simp only [findEntry, List.find?_cons, hkb]
  | none =>
    have hmiss' : findEntry ({ c with misses := c.misses + 1 } : FileCache).entries k
        = none := hfind
    cases r with
    | none =>
      simp [cacheLoadFile, cacheAcquire_miss hfind] at hload
    | some buf =>
      cases a with
      | false =>
        simp [cacheLoadFile, cacheAcquire_miss hfind, cacheLoadInsert,
          hmiss'] at hload
      | true =>
        have heq : cacheLoadFile c k (some buf) true
            = (evictIfNeeded { c with
                misses := c.misses + 1,
                entries := { key := k, data := buf, size := buf.length,
                             refcnt := 1 } :: c.entries,
                items := c.items + 1,
                bytes_used := c.bytes_used + buf.length },
               some { data := some buf, size := buf.length, entryRef := some k }) := by
          simp [cacheLoadFile, cacheAcquire_miss hfind, cacheLoadInsert, hmiss']
        rw [heq] at hload
        simp only [Prod.mk.injEq, Option.some.injEq] at hload
        obtain ⟨rfl, rfl⟩ := hload
        set c₂ : FileCache := { c with
          misses := c.misses + 1,
          entries := { key := k, data := buf, size := buf.length, refcnt := 1 }
            :: c.entries,
          items := c.items + 1,
          bytes_used := c.bytes_used + buf.length } with hc₂
        set newE : CacheEntry :=
          { key := k, data := buf, size := buf.length, refcnt := 1 } with hnewE
        have hmemNew : newE ∈ (evictIfNeeded c₂).entries := by
          refine evictLoop_pinned_mem c₂.entries.length c₂ newE ?_ (by simp [hnewE])
          show newE ∈ newE :: c.entries
          exact List.mem_cons_self _ _
        have hsub : (evictIfNeeded c₂).entries.Sublist (newE :: c.entries) :=
          evictLoop_entries_sublist c₂.entries.length c₂
        have hother : ∀ x ∈ c.entries, x.key ≠ k := findEntry_eq_none hfind
        refine ⟨rfl, newE,
          findEntry_sublist_head hsub hmemNew (by simp [hnewE]) hother, ?_⟩
        simp [hnewE]

/-!
Claim theorems.
-/

/-- C1: On a cache whose accounting fields match its entry list, eviction
(run after insertion in cache_load_file and from cache_release when over
capacity) stops only once bytes_used is within capacity or every remaining
entry is pinned; pinned entries are never removed (by eviction or by
invalidation); survivors keep their LRU order; accounting stays exact and
the eviction counter counts the removed entries; nothing happens within
capacity; and each round removes exactly the unpinned entry nearest the
LRU tail. -/
theorem C1_eviction_policy (c : FileCache)
    (hb : c.bytes_used = sumSizes c.entries)
    (hi : c.items = c.entries.length) :
    ((evictIfNeeded c).bytes_used ≤ c.capacity ∨
      ∀ e ∈ (evictIfNeeded c).entries, e.refcnt ≠ 0) ∧
    (∀ e ∈ c.entries, e.refcnt ≠ 0 → e ∈ (evictIfNeeded c).entries) ∧
    (evictIfNeeded c).entries.Sublist c.entries ∧
    (evictIfNeeded c).bytes_used = sumSizes (evictIfNeeded c).entries ∧
    (evictIfNeeded c).items = (evictIfNeeded c).entries.length ∧
    (evictIfNeeded c).evictions = c.evictions + (c.items - (evictIfNeeded c).items) ∧
    (c.bytes_used ≤ c.capacity → evictIfNeeded c = c) ∧
    (∀ e rest, c.capacity < c.bytes_used →
      removeLastUnpinned c.entries = some (e, rest) →
      e.refcnt = 0 ∧
      evictIfNeeded c =
        evictIfNeeded { c with entries := rest,
                               bytes_used := c.bytes_used - e.size,
                               items := c.items - 1,
                               evictions := c.evictions + 1 }) ∧
    (∀ k e, findEntry c.entries k = some e → e.refcnt ≠ 0 →
      cacheInvalidate c k = (false, c)) := by
  obtain ⟨ib, ii, icap, -, -, isub, ipinned, istop, ievict⟩ :=
    evictIfNeeded_spec c hb hi
  refine ⟨istop, ipinned, isub, ib, ii, ?_, ?_, ?_, ?_⟩
  · rw [ievict, hi, ii]
  · intro hle
    have hstop : ¬(c.capacity < c.bytes_used ∧ c.entries ≠ []) := by
      intro hcon
      exact absurd hle (Nat.not_le_of_lt hcon.1)
    cases hn : c.entries.length with
    | zero => simp [evictIfNeeded, hn, evictLoop]
    | succ n =>
      rw [evictIfNeeded, hn]
      exact evictLoop_succ_stop n c hstop
  · intro e rest hover hrm
    obtain ⟨hz, l₁, l₂, hsplit, hrest, -⟩ := removeLastUnpinned_eq_some hrm
    have hne : c.entries ≠ [] := by
      rw [hsplit]
      simp
    have hlen : c.entries.length = rest.length + 1 := by
      rw [hsplit, hrest]
      simp only [List.length_append, List.length_cons]
      omega
    refine ⟨hz, ?_⟩
    rw [evictIfNeeded, hlen, evictLoop_succ_some rest.length c e rest ⟨hover, hne⟩ hrm]
    rfl
  · intro k e hfind hpin
    exact cacheInvalidate_pinned hfind (Nat.pos_of_ne_zero hpin)

/-- C1 witness: the hypotheses and conclusion at a concrete over-capacity
cache with one pinned and one unpinned entry. -/
theorem C1_eviction_policy_witness :
    (witnessCacheC1.bytes_used = sumSizes witnessCacheC1.entries ∧
      witnessCacheC1.items = witnessCacheC1.entries.length) ∧
    (((evictIfNeeded witnessCacheC1).bytes_used ≤ witnessCacheC1.capacity ∨
      ∀ e ∈ (evictIfNeeded witnessCacheC1).entries, e.refcnt ≠ 0) ∧
    (∀ e ∈ witnessCacheC1.entries, e.refcnt ≠ 0 →
      e ∈ (evictIfNeeded witnessCacheC1).entries) ∧
    (evictIfNeeded witnessCacheC1).entries.Sublist witnessCacheC1.entries ∧
    (evictIfNeeded witnessCacheC1).bytes_used
      = sumSizes (evictIfNeeded witnessCacheC1).entries ∧
    (evictIfNeeded witnessCacheC1).items
      = (evictIfNeeded witnessCacheC1).entries.length ∧
    (evictIfNeeded witnessCacheC1).evictions
      = witnessCacheC1.evictions
        + (witnessCacheC1.items - (evictIfNeeded witnessCacheC1).items) ∧
    (witnessCacheC1.bytes_used ≤ witnessCacheC1.capacity →
      evictIfNeeded witnessCacheC1 = witnessCacheC1) ∧
    (∀ e rest, witnessCacheC1.capacity < witnessCacheC1.bytes_used →
      removeLastUnpinned witnessCacheC1.entries = some (e, rest) →
      e.refcnt = 0 ∧
      evictIfNeeded witnessCacheC1 =
        evictIfNeeded { witnessCacheC1 with
                        entries := rest,
                        bytes_used := witnessCacheC1.bytes_used - e.size,
                        items := witnessCacheC1.items - 1,
                        evictions := witnessCacheC1.evictions + 1 }) ∧
    (∀ k e, findEntry witnessCacheC1.entries k = some e → e.refcnt ≠ 0 →
      cacheInvalidate witnessCacheC1 k = (false, witnessCacheC1))) :=
  ⟨⟨by decide, by decide⟩, C1_eviction_policy witnessCacheC1 (by decide) (by decide)⟩

/-- C2 counterexample: when the file cannot be read, cache_load_file
returns failure but does not leave the cache unchanged — the initial
lookup has incremented the miss counter. -/
theorem C2_load_failure_changes_cache :
    (cacheLoadFile (cacheCreate 100) "/a" none true).2 = none ∧
    (cacheLoadFile (cacheCreate 100) "/a" none true).1 ≠ cacheCreate 100 ∧
    (cacheLoadFile (cacheCreate 100) "/a" none true).1.misses
      = (cacheCreate 100).misses + 1 := by
  refine ⟨by decide, by decide, by decide⟩

/-- C2 (amended): cache_load_file first attempts to pin an existing entry;
on miss it reads the file outside the mutex and re-enters the mutex, where
it either reuses a now-present entry (discarding the read buffer) or
inserts a new pinned entry at the MRU end, charges its size and runs
eviction; on read or allocation failure it returns failure leaving
entries, bytes_used and items unchanged, with only the miss counter of the
initial lookup incremented. -/
theorem C2_load_file_spec (c : FileCache) (k : String) (r : Option (List Nat))
    (a : Bool) :
    (∀ c' h, cacheAcquire c k = (c', some h) → cacheLoadFile c k r a = (c', some h)) ∧
    (findEntry c.entries k = none →
      cacheLoadFile c k none a = ({ c with misses := c.misses + 1 }, none)) ∧
    (findEntry c.entries k = none → ∀ buf,
      cacheLoadFile c k (some buf) false = ({ c with misses := c.misses + 1 }, none)) ∧
    (findEntry c.entries k = none → ∀ buf,
      cacheLoadFile c k (some buf) true =
        (evictIfNeeded { c with
            misses := c.misses + 1,
            entries := { key := k, data := buf, size := buf.length, refcnt := 1 }
              :: c.entries,
            items := c.items + 1,
            bytes_used := c.bytes_used + buf.length },
         some { data := some buf, size := buf.length, entryRef := some k })) ∧
    (∀ c₂ buf a' e, findEntry c₂.entries k = some e →
      cacheLoadInsert c₂ k buf a' =
        ({ c₂ with
            entries := { e with refcnt := e.refcnt + 1 } :: eraseKey c₂.entries k,
            hits := c₂.hits + 1 },
         some { data := some e.data, size := e.size, entryRef := some e.key })) := by
  refine ⟨?_, ?_, ?_, ?_, ?_⟩
  · intro c' h hacq
    simp [cacheLoadFile, hacq]
  · intro hfind
    simp [cacheLoadFile, cacheAcquire_miss hfind]
  · intro hfind buf
    have hfind' : findEntry ({ c with misses := c.misses + 1 } : FileCache).entries k
        = none := hfind
    simp [cacheLoadFile, cacheAcquire_miss hfind, cacheLoadInsert, hfind']
  · intro hfind buf
    have hfind' : findEntry ({ c with misses := c.misses + 1 } : FileCache).entries k
        = none := hfind
    simp [cacheLoadFile, cacheAcquire_miss hfind, cacheLoadInsert, hfind']
  · intro c₂ buf a' e hfind
    simp [cacheLoadInsert, hfind]

/-- C2 witness: hit, read-failure and insertion instances of the load
specification at concrete caches. -/
theorem C2_load_file_spec_witness :
    (cacheAcquire witnessCacheA "/a" = (witnessCacheApinned, some witnessHandleA) ∧
      cacheLoadFile witnessCacheA "/a" none true
        = (witnessCacheApinned, some witnessHandleA)) ∧
    (findEntry (cacheCreate 100).entries "/a" = none ∧
      cacheLoadFile (cacheCreate 100) "/a" none true
        = ({ cacheCreate 100 with misses := (cacheCreate 100).misses + 1 }, none)) ∧
    (findEntry (cacheCreate 100).entries "/b" = none ∧
      cacheLoadFile (cacheCreate 100) "/b" (some [7, 8]) true =
        (evictIfNeeded { cacheCreate 100 with
            misses := (cacheCreate 100).misses + 1,
            entries := { key := "/b", data := [7, 8], size := [7, 8].length,
                         refcnt := 1 } :: (cacheCreate 100).entries,
            items := (cacheCreate 100).items + 1,
            bytes_used := (cacheCreate 100).bytes_used + [7, 8].length },
         some { data := some [7, 8], size := [7, 8].length, entryRef := some "/b" })) :=
  ⟨⟨by decide,
    (C2_load_file_spec witnessCacheA "/a" none true).1 witnessCacheApinned
      witnessHandleA (by decide)⟩,
   ⟨by decide, (C2_load_file_spec (cacheCreate 100) "/a" none true).2.1 (by decide)⟩,
   ⟨by decide,
    (C2_load_file_spec (cacheCreate 100) "/b" (some [7, 8]) true).2.2.2.1
      (by decide) [7, 8]⟩⟩

/-- C9: a handle obtained from cache_acquire, and equally one obtained
from cache_load_file (fast-path hit or fresh insert), points at a pinned
entry of the returned cache; the first cache_release decrements that
entry's pin count by exactly one and returns a cleared handle (no data
pointer, size zero, no entry reference); releasing a handle with no entry
reference — in particular a cleared one — leaves cache and handle
unchanged; and an entry whose pin count is already zero is never
decremented further. -/
theorem C9_release_spec :
    (∀ c k c' h, cacheAcquire c k = (c', some h) →
      h.entryRef = some k ∧
      (∃ e, findEntry c'.entries k = some e ∧ 0 < e.refcnt ∧
        findEntry (decPin c'.entries k) k = some { e with refcnt := e.refcnt - 1 }) ∧
      (cacheRelease c' h).2 = { data := none, size := 0, entryRef := none } ∧
      (cacheRelease c' h).1 =
        (if c'.capacity < c'.bytes_used
         then evictIfNeeded { c' with entries := decPin c'.entries k }
         else { c' with entries := decPin c'.entries k })) ∧
    (∀ c k r a c' h, cacheLoadFile c k r a = (c', some h) →
      h.entryRef = some k ∧
      (∃ e, findEntry c'.entries k = some e ∧ 0 < e.refcnt ∧
        findEntry (decPin c'.entries k) k = some { e with refcnt := e.refcnt - 1 }) ∧
      (cacheRelease c' h).2 = { data := none, size := 0, entryRef := none } ∧
      (cacheRelease c' h).1 =
        (if c'.capacity < c'.bytes_used
         then evictIfNeeded { c' with entries := decPin c'.entries k }
         else { c' with entries := decPin c'.entries k })) ∧
    (∀ c h, h.entryRef = none → cacheRelease c h = (c, h)) ∧
    (∀ c h c'', cacheRelease c'' (cacheRelease c h).2 = (c'', (cacheRelease c h).2)) ∧
    (∀ es k e, e ∈ es → e.refcnt = 0 → e ∈ decPin es k) := by
  have hnone : ∀ c h, h.entryRef = none → cacheRelease c h = (c, h) := by
    intro c h hh
    simp [cacheRelease, hh]
  refine ⟨?_, ?_, hnone, ?_, fun es k e he hz => decPin_zero_mem he hz k⟩
  · intro c k c' h hacq
    cases hfind : findEntry c.entries k with
    | none =>
      rw [cacheAcquire_miss hfind] at hacq
      simp at hacq
    | some e₀ =>
      rw [cacheAcquire_hit hfind] at hacq
      obtain ⟨hkey, l₁, l₂, hsplit, herase⟩ := findEntry_eq_some hfind
      simp only [Prod.mk.injEq, Option.some.injEq] at hacq
      obtain ⟨rfl, rfl⟩ := hacq
      have hkb : (({ e₀ with refcnt := e₀.refcnt + 1 } : CacheEntry).key == k)
          = true := by
        simpa using hkey
      have hfind' : findEntry
          ({ e₀ with refcnt := e₀.refcnt + 1 } :: eraseKey c.entries k) k
          = some { e₀ with refcnt := e₀.refcnt + 1 } := by
        simp only [findEntry, List.find?_cons, hkb]
      refine ⟨by simpa using hkey, ?_, ?_, ?_⟩
      · refine ⟨{ e₀ with refcnt := e₀.refcnt + 1 }, hfind', Nat.succ_pos _, ?_⟩
        rw [findEntry_decPin hfind']
        simp
      · simp [cacheRelease, hkey]
      · simp [cacheRelease, hkey]
  · intro c k r a c' h hload
    obtain ⟨hh, e, hfind, hpin⟩ := cacheLoadFile_handle_pinned c k r a c' h hload
    refine ⟨hh, ⟨e, hfind, hpin, ?_⟩, ?_, ?_⟩
    · rw [findEntry_decPin hfind]
      simp [hpin]
    · simp [cacheRelease, hh]
    · simp [cacheRelease, hh]
  · intro c h c''
    cases hh : h.entryRef with
    | none =>
      rw [hnone c h hh]
      exact hnone c'' h hh
    | some k =>
      have : (cacheRelease c h).2 = { data := none, size := 0, entryRef := none } := by
        simp [cacheRelease, hh]
      rw [this]
      exact hnone c'' _ rfl

/-- C9 witness: the release specification at a concrete acquired handle
and at a concrete handle returned by a fresh cache_load_file insert (a
state with hits = 0, which no cache_acquire call produces). -/
theorem C9_release_spec_witness :
    (cacheAcquire witnessCacheA "/a" = (witnessCacheApinned, some witnessHandleA) ∧
    (witnessHandleA.entryRef = some "/a" ∧
      (∃ e, findEntry witnessCacheApinned.entries "/a" = some e ∧ 0 < e.refcnt ∧
        findEntry (decPin witnessCacheApinned.entries "/a") "/a"
          = some { e with refcnt := e.refcnt - 1 }) ∧
      (cacheRelease witnessCacheApinned witnessHandleA).2
        = { data := none, size := 0, entryRef := none } ∧
      (cacheRelease witnessCacheApinned witnessHandleA).1 =
        (if witnessCacheApinned.capacity < witnessCacheApinned.bytes_used
         then evictIfNeeded { witnessCacheApinned with
                entries := decPin witnessCacheApinned.entries "/a" }
         else { witnessCacheApinned with
                entries := decPin witnessCacheApinned.entries "/a" }))) ∧
    (cacheLoadFile (cacheCreate 100) "/a" (some [1, 2, 3]) true
        = (witnessCacheFreshLoad, some witnessHandleA) ∧
    witnessCacheFreshLoad.hits = 0 ∧
    (witnessHandleA.entryRef = some "/a" ∧
      (∃ e, findEntry witnessCacheFreshLoad.entries "/a" = some e ∧ 0 < e.refcnt ∧
        findEntry (decPin witnessCacheFreshLoad.entries "/a") "/a"
          = some { e with refcnt := e.refcnt - 1 }) ∧
      (cacheRelease witnessCacheFreshLoad witnessHandleA).2
        = { data := none, size := 0, entryRef := none } ∧
      (cacheRelease witnessCacheFreshLoad witnessHandleA).1 =
        (if witnessCacheFreshLoad.capacity < witnessCacheFreshLoad.bytes_used
         then evictIfNeeded { witnessCacheFreshLoad with
                entries := decPin witnessCacheFreshLoad.entries "/a" }
         else { witnessCacheFreshLoad with
                entries := decPin witnessCacheFreshLoad.entries "/a" }))) :=
  ⟨⟨by decide,
    C9_release_spec.1 witnessCacheA "/a" witnessCacheApinned witnessHandleA
      (by decide)⟩,
   ⟨by decide, by decide,
    C9_release_spec.2.1 (cacheCreate 100) "/a" (some [1, 2, 3]) true
      witnessCacheFreshLoad witnessHandleA (by decide)⟩⟩

/-- C3: starting from a freshly created cache, after any sequence of
operations bytes_used equals the sum of the present entries' sizes, and a
cache in which no entry is pinned is within capacity. -/
theorem C3_cache_accounting_invariant (capacity_bytes : Nat) (ops : List CacheOp) :
    (ops.foldl cacheStep (cacheCreate capacity_bytes)).bytes_used
      = sumSizes (ops.foldl cacheStep (cacheCreate capacity_bytes)).entries ∧
    ((∀ e ∈ (ops.foldl cacheStep (cacheCreate capacity_bytes)).entries, e.refcnt = 0) →
      (ops.foldl cacheStep (cacheCreate capacity_bytes)).bytes_used
        ≤ (ops.foldl cacheStep (cacheCreate capacity_bytes)).capacity) := by
  have h := wf_foldl ops (cacheCreate capacity_bytes) (wf_cacheCreate capacity_bytes)
  exact ⟨h.1, h.2.2⟩

/-- C4 counterexample: a cache miss followed by a file-read failure does
not always yield 500 — when the fallback fopen fails with EACCES the
handler responds 403. -/
theorem C4_eacces_yields_403 :
    witnessEnvEacces.readResult = none ∧
    findEntry (cacheCreate 100).entries "/x.txt" = none ∧
    respondsWith (handleClientRequest witnessEnvEacces (cacheCreate 100)) 403 ∧
    (handleClientRequest witnessEnvEacces (cacheCreate 100)).status ≠ some 500 := by
  refine ⟨by decide, by decide, by decide, by decide⟩

/-- C4 (amended): malformed HTTP yields 400; a method other than GET/HEAD
yields 405; a traversal path yields 403; a cache miss on an inaccessible
file yields 404; a cache miss whose load fails falls back to a direct
read: stat/open/read failures yield 500 except permission-denied on open,
which yields 403, and a successful direct read serves the file via
send_content; in every responding case stats are updated with the sent
status, exactly one log line is written, and the connection is closed. -/
theorem C4_request_error_statuses (env : HandlerEnv) (c : FileCache) :
    (env.readOk = false →
      (handleClientRequest env c).status = none ∧
      (handleClientRequest env c).statsStatus = none ∧
      (handleClientRequest env c).logLines = 0 ∧
      (handleClientRequest env c).closed = true) ∧
    (env.readOk = true → env.request = none →
      respondsWith (handleClientRequest env c) 400) ∧
    (∀ req, env.readOk = true → env.request = some req →
      req.method ≠ "GET" → req.method ≠ "HEAD" →
      respondsWith (handleClientRequest env c) 405) ∧
    (∀ req, env.readOk = true → env.request = some req →
      (req.method = "GET" ∨ req.method = "HEAD") →
      containsSeq ['.', '.'] req.path.data = true →
      respondsWith (handleClientRequest env c) 403) ∧
    (∀ req, env.readOk = true → env.request = some req →
      (req.method = "GET" ∨ req.method = "HEAD") →
      req.path ≠ "/api/stats" →
      isPathSafe (if req.path == "/" then "/index.html" else req.path) = true →
      findEntry c.entries (if req.path == "/" then "/index.html" else req.path)
        = none →
      env.fileAccessible = false →
      respondsWith (handleClientRequest env c) 404) ∧
    (∀ req, env.readOk = true → env.request = some req →
      (req.method = "GET" ∨ req.method = "HEAD") →
      req.path ≠ "/api/stats" →
      isPathSafe (if req.path == "/" then "/index.html" else req.path) = true →
      findEntry c.entries (if req.path == "/" then "/index.html" else req.path)
        = none →
      env.fileAccessible = true →
      (env.readResult = none ∨ env.allocOk = false) →
      ((env.statRegSize = none →
          respondsWith (handleClientRequest env c) 500) ∧
       (∀ sz, env.statRegSize = some sz → env.fopenOk = false →
          env.eacces = true →
          respondsWith (handleClientRequest env c) 403) ∧
       (∀ sz, env.statRegSize = some sz → env.fopenOk = false →
          env.eacces = false →
          respondsWith (handleClientRequest env c) 500) ∧
       (∀ sz, env.statRegSize = some sz → env.fopenOk = true →
          env.fallbackReadOk = false →
          respondsWith (handleClientRequest env c) 500) ∧
       (∀ sz, env.statRegSize = some sz → env.fopenOk = true →
          env.fallbackReadOk = true →
          respondsWith (handleClientRequest env c)
            (sendContent sz req.range).1 ∧
          (handleClientRequest env c).bytesSent
            = (sendContent sz req.range).2))) := by
  refine ⟨?_, ?_, ?_, ?_, ?_, ?_⟩
  · intro hread
    simp [handleClientRequest, hread]
  · intro hread hreq
    simp [handleClientRequest, hread, hreq, respondsWith]
  · intro req hread hreq hG hH
    simp [handleClientRequest, hread, hreq, hG, hH, respondsWith]
  · intro req hread hreq hmethod hcont
    have hapi : req.path ≠ "/api/stats" := by
      intro hEq
      rw [hEq] at hcont
      exact absurd hcont (by decide)
    have hslash : req.path ≠ "/" := by
      intro hEq
      rw [hEq] at hcont
      exact absurd hcont (by decide)
    have hunsafe : isPathSafe req.path = false := by
      simp [isPathSafe, hcont]
    rcases hmethod with hG | hH
    · simp [handleClientRequest, hread, hreq, hG, hapi, hslash, hunsafe,
        respondsWith]
    · simp [handleClientRequest, hread, hreq, hH, hapi, hslash, hunsafe,
        respondsWith]
  · intro req hread hreq hmethod hapi hsafe hmiss hacc
    simp only [beq_iff_eq] at hsafe hmiss
    rcases hmethod with hG | hH
    · simp [handleClientRequest, hread, hreq, hG, hapi, hsafe,
        cacheAcquire_miss hmiss, hacc, respondsWith]
    · simp [handleClientRequest, hread, hreq, hH, hapi, hsafe,
        cacheAcquire_miss hmiss, hacc, respondsWith]
  · intro req hread hreq hmethod hapi hsafe hmiss hacc hfail
    simp only [beq_iff_eq] at hsafe hmiss
    have hmiss' : findEntry
        ({ c with misses := c.misses + 1 } : FileCache).entries
        (if req.path = "/" then "/index.html" else req.path) = none := hmiss
    have hload : cacheLoadFile { c with misses := c.misses + 1 }
        (if req.path = "/" then "/index.html" else req.path)
        env.readResult env.allocOk
        = ({ c with misses := c.misses + 1 + 1 }, none) := by
      rcases hfail with hr | ha
      · rw [hr]
        simp [cacheLoadFile, cacheAcquire_miss hmiss']
      · cases hr : env.readResult with
        | none => simp [cacheLoadFile, cacheAcquire_miss hmiss']
        | some buf =>
          rw [ha]
          simp [cacheLoadFile, cacheAcquire_miss hmiss', cacheLoadInsert, hmiss']
    rcases hmethod with hm | hm <;>
    · refine ⟨?_, ?_, ?_, ?_, ?_⟩
      · intro hstat
        simp [handleClientRequest, hread, hreq, hm, hapi, hsafe,
          cacheAcquire_miss hmiss, hacc, hload, hstat, respondsWith]
      · intro sz hstat hfo he
        simp [handleClientRequest, hread, hreq, hm, hapi, hsafe,
          cacheAcquire_miss hmiss, hacc, hload, hstat, hfo, he, respondsWith]
      · intro sz hstat hfo he
        simp [handleClientRequest, hread, hreq, hm, hapi, hsafe,
          cacheAcquire_miss hmiss, hacc, hload, hstat, hfo, he, respondsWith]
      · intro sz hstat hfo hfb
        simp [handleClientRequest, hread, hreq, hm, hapi, hsafe,
          cacheAcquire_miss hmiss, hacc, hload, hstat, hfo, hfb, respondsWith]
      · intro sz hstat hfo hfb
        simp [handleClientRequest, hread, hreq, hm, hapi, hsafe,
          cacheAcquire_miss hmiss, hacc, hload, hstat, hfo, hfb, respondsWith]

/-- C4 witness: the amended request-status specification at concrete
environments covering 400, 405, 403-traversal, 404 and the 500 fallback. -/
theorem C4_request_error_statuses_witness :
    respondsWith
      (handleClientRequest { witnessEnvBase with request := none }
        (cacheCreate 100)) 400 ∧
    respondsWith
      (handleClientRequest { witnessEnvBase with
        request := some { method := "POST", path := "/", range := .absent } }
        (cacheCreate 100)) 405 ∧
    respondsWith
      (handleClientRequest { witnessEnvBase with
        request := some { method := "GET", path := "/../etc/passwd",
                          range := .absent } }
        (cacheCreate 100)) 403 ∧
    respondsWith
      (handleClientRequest { witnessEnvBase with
        request := some { method := "GET", path := "/absent.txt",
                          range := .absent },
        fileAccessible := false }
        (cacheCreate 100)) 404 ∧
    respondsWith
      (handleClientRequest { witnessEnvBase with
        request := some { method := "GET", path := "/x.txt", range := .absent } }
        (cacheCreate 100)) 500 :=
  ⟨(C4_request_error_statuses { witnessEnvBase with request := none }
      (cacheCreate 100)).2.1 (by decide) (by decide),
   (C4_request_error_statuses { witnessEnvBase with
      request := some { method := "POST", path := "/", range := .absent } }
      (cacheCreate 100)).2.2.1
     { method := "POST", path := "/", range := .absent }
     (by decide) (by decide) (by decide) (by decide),
   (C4_request_error_statuses { witnessEnvBase with
      request := some { method := "GET", path := "/../etc/passwd",
                        range := .absent } }
      (cacheCreate 100)).2.2.2.1
     { method := "GET", path := "/../etc/passwd", range := .absent }
     (by decide) (by decide) (Or.inl (by decide)) (by decide),
   (C4_request_error_statuses { witnessEnvBase with
      request := some { method := "GET", path := "/absent.txt",
                        range := .absent },
      fileAccessible := false }
      (cacheCreate 100)).2.2.2.2.1
     { method := "GET", path := "/absent.txt", range := .absent }
     (by decide) (by decide) (Or.inl (by decide)) (by decide) (by decide)
     (by decide) (by decide),
   ((C4_request_error_statuses { witnessEnvBase with
      request := some { method := "GET", path := "/x.txt", range := .absent } }
      (cacheCreate 100)).2.2.2.2.2
     { method := "GET", path := "/x.txt", range := .absent }
     (by decide) (by decide) (Or.inl (by decide)) (by decide) (by decide)
     (by decide) (by decide) (Or.inl (by decide))).1 (by decide)⟩

/-- The rename cascade of rotate_logs, pointwise: the live file is
reopened empty, every generation shifts up by one, generation 5 takes
generation 4's content (the old generation 5 was unlinked), and slots
beyond 5 are untouched. -/
theorem rotateLogs_apply (fs : LogFS) :
    rotateLogs fs 0 = some [] ∧
    rotateLogs fs 1 = fs 0 ∧
    rotateLogs fs 2 = fs 1 ∧
    rotateLogs fs 3 = fs 2 ∧
    rotateLogs fs 4 = fs 3 ∧
    rotateLogs fs 5 = fs 4 := by
  cases h0 : fs 0 <;> cases h1 : fs 1 <;> cases h2 : fs 2 <;> cases h3 : fs 3 <;>
    cases h4 : fs 4 <;>
    simp [rotateLogs, unlinkGen, renameGen, h0, h1, h2, h3, h4]

/-- rotate_logs touches only the live file and generations 1..5. -/
theorem rotateLogs_high (fs : LogFS) (j : Nat) (hj : 6 ≤ j) :
    rotateLogs fs j = fs j := by
  have hj0 : j ≠ 0 := by omega
  have hj1 : j ≠ 1 := by omega
  have hj2 : j ≠ 2 := by omega
  have hj3 : j ≠ 3 := by omega
  have hj4 : j ≠ 4 := by omega
  have hj5 : j ≠ 5 := by omega
  cases h0 : fs 0 <;> cases h1 : fs 1 <;> cases h2 : fs 2 <;> cases h3 : fs 3 <;>
    cases h4 : fs 4 <;>
    simp [rotateLogs, unlinkGen, renameGen, h0, h1, h2, h3, h4,
      hj0, hj1, hj2, hj3, hj4, hj5]

/-- C7: whenever logger_write sees the live log file at or above the
10 MiB threshold, it rotates before writing the line: the live file is
renamed into generation 1, each generation i moves to i+1 for i from 4
down to 1, the old generation 5 is dropped, the live file is reopened
empty and then receives exactly the new line; generations beyond 5 are
never created. -/
theorem C7_log_rotation_spec (fs : LogFS)
    (ip date method path : String) (status : Int) (bytes_sent : Nat)
    (duration_ms : Int)
    (hbig : LOG_MAX_SIZE ≤ logFileSize ((fs 0).getD [])) :
    loggerWrite fs ip date method path status bytes_sent duration_ms
      = appendLogLine (rotateLogs fs)
          (formatLogLine ip date method path status bytes_sent duration_ms) ∧
    rotateLogs fs 0 = some [] ∧
    rotateLogs fs 1 = fs 0 ∧
    rotateLogs fs 2 = fs 1 ∧
    rotateLogs fs 3 = fs 2 ∧
    rotateLogs fs 4 = fs 3 ∧
    rotateLogs fs 5 = fs 4 ∧
    loggerWrite fs ip date method path status bytes_sent duration_ms 0
      = some [formatLogLine ip date method path status bytes_sent duration_ms] ∧
    (∀ j, 6 ≤ j →
      loggerWrite fs ip date method path status bytes_sent duration_ms j = fs j) ∧
    LOG_MAX_SIZE = 10 * 1024 * 1024 := by
  obtain ⟨r0, r1, r2, r3, r4, r5⟩ := rotateLogs_apply fs
  have hw : loggerWrite fs ip date method path status bytes_sent duration_ms
      = appendLogLine (rotateLogs fs)
          (formatLogLine ip date method path status bytes_sent duration_ms) := by
    simp [loggerWrite, hbig]
  refine ⟨hw, r0, r1, r2, r3, r4, r5, ?_, ?_, rfl⟩
  · rw [hw]
    simp [appendLogLine, r0]
  · intro j hj
    have hj0 : j ≠ 0 := by omega
    rw [hw]
    simp [appendLogLine, hj0, rotateLogs_high fs j hj]

/-- C7 witness: rotation at a concrete filesystem whose live file holds
exactly 10 MiB. -/
theorem C7_log_rotation_spec_witness :
    (LOG_MAX_SIZE ≤ logFileSize ((witnessLogBig 0).getD [])) ∧
    (loggerWrite witnessLogBig "127.0.0.1" "11/Oct/2026:12:00:00" "GET" "/" 200 42 3
      = appendLogLine (rotateLogs witnessLogBig)
          (formatLogLine "127.0.0.1" "11/Oct/2026:12:00:00" "GET" "/" 200 42 3) ∧
    rotateLogs witnessLogBig 0 = some [] ∧
    rotateLogs witnessLogBig 1 = witnessLogBig 0 ∧
    rotateLogs witnessLogBig 2 = witnessLogBig 1 ∧
    rotateLogs witnessLogBig 3 = witnessLogBig 2 ∧
    rotateLogs witnessLogBig 4 = witnessLogBig 3 ∧
    rotateLogs witnessLogBig 5 = witnessLogBig 4 ∧
    loggerWrite witnessLogBig "127.0.0.1" "11/Oct/2026:12:00:00" "GET" "/" 200 42 3 0
      = some [formatLogLine "127.0.0.1" "11/Oct/2026:12:00:00" "GET" "/" 200 42 3] ∧
    (∀ j, 6 ≤ j →
      loggerWrite witnessLogBig "127.0.0.1" "11/Oct/2026:12:00:00" "GET" "/" 200 42 3 j
        = witnessLogBig j) ∧
    LOG_MAX_SIZE = 10 * 1024 * 1024) := by
  have hlen : bigLogLine.length = LOG_MAX_SIZE := by
    show (List.replicate LOG_MAX_SIZE 'a').length = LOG_MAX_SIZE
    exact List.length_replicate _ _
  have hbig : LOG_MAX_SIZE ≤ logFileSize ((witnessLogBig 0).getD []) := by
    show LOG_MAX_SIZE ≤ logFileSize [bigLogLine]
    show LOG_MAX_SIZE ≤ (List.map String.length [bigLogLine]).sum
    simp [hlen]
  exact ⟨hbig,
    C7_log_rotation_spec witnessLogBig "127.0.0.1" "11/Oct/2026:12:00:00" "GET" "/"
      200 42 3 hbig⟩

/-- C8 counterexample: logger_write does not buffer — at a concrete small
filesystem the formatted line is in the live log file the moment
logger_write returns, so no written line ever remains outside the file. -/
theorem C8_line_written_immediately :
    loggerWrite witnessLogSmall "127.0.0.1" "11/Oct/2026:12:00:00" "GET" "/" 200 42 3 0
      = some [formatLogLine "127.0.0.1" "11/Oct/2026:12:00:00" "GET" "/" 200 42 3] := by
  decide

/-- C8 (amended): logger_write holds no in-memory buffer and no
last-flush clock: below the rotation threshold it appends the formatted
line directly to the live file via write_all (which loops over partial
writes and EINTR), and in every case the live file already ends with the
new line when logger_write returns. -/
theorem C8_no_buffer_spec (fs : LogFS) (ip date method path : String)
    (status : Int) (bytes_sent : Nat) (duration_ms : Int) :
    (logFileSize ((fs 0).getD []) < LOG_MAX_SIZE →
      loggerWrite fs ip date method path status bytes_sent duration_ms
        = appendLogLine fs
            (formatLogLine ip date method path status bytes_sent duration_ms)) ∧
    (∃ prev, loggerWrite fs ip date method path status bytes_sent duration_ms 0
      = some (prev ++
          [formatLogLine ip date method path status bytes_sent duration_ms])) := by
  constructor
  · intro hsmall
    have : ¬(LOG_MAX_SIZE ≤ logFileSize ((fs 0).getD [])) := by omega
    simp [loggerWrite, this]
  · exact ⟨_, rfl⟩

/-- C8 witness: the no-buffering specification at a concrete small log. -/
theorem C8_no_buffer_spec_witness :
    (logFileSize ((witnessLogSmall 0).getD []) < LOG_MAX_SIZE) ∧
    loggerWrite witnessLogSmall "127.0.0.1" "11/Oct/2026:12:00:00" "HEAD" "/a" 404 0 1
      = appendLogLine witnessLogSmall
          (formatLogLine "127.0.0.1" "11/Oct/2026:12:00:00" "HEAD" "/a" 404 0 1) :=
  ⟨by decide,
   (C8_no_buffer_spec witnessLogSmall "127.0.0.1" "11/Oct/2026:12:00:00" "HEAD" "/a"
      404 0 1).1 (by decide)⟩

/-- C5 counterexample: submitting to a pool whose shutdown flag is set is
not rejected — the fd is enqueued on the job queue and nothing is closed. -/
theorem C5_submit_not_rejected :
    witnessPoolDown.shutdown = true ∧
    (threadPoolSubmit witnessPoolDown 7).1.jobs = [7] ∧
    (threadPoolSubmit witnessPoolDown 7).1.job_count = 1 ∧
    (threadPoolSubmit witnessPoolDown 7).2 = [] := by
  refine ⟨rfl, rfl, rfl, rfl⟩

/-- C5 (amended): thread_pool_submit performs no state check at all — in
every pool state, including shutdown, it appends the fd at the tail of the
job queue, bumps job_count, and closes nothing; fds still queued when
destroy_thread_pool runs after joining the threads are closed there. -/
theorem C5_submit_always_enqueues (p : ThreadPool) (client_fd : Nat) :
    (threadPoolSubmit p client_fd).1.jobs = p.jobs ++ [client_fd] ∧
    (threadPoolSubmit p client_fd).1.job_count = p.job_count + 1 ∧
    (threadPoolSubmit p client_fd).1.shutdown = p.shutdown ∧
    (threadPoolSubmit p client_fd).2 = [] ∧
    destroyThreadPool p = p.jobs := by
  exact ⟨rfl, rfl, rfl, rfl, rfl⟩

/-- C6 counterexample: a loaded configuration with THREADS_PER_WORKER=4
still gets a worker pool of 10 threads. -/
theorem C6_pool_ignores_config :
    (loadConfig [("THREADS_PER_WORKER", "4")] masterDefaults).threads_per_worker
      = 4 ∧
    (workerMainPool
        (loadConfig [("THREADS_PER_WORKER", "4")] masterDefaults)).num_threads
      = 10 ∧
    ((workerMainPool
        (loadConfig [("THREADS_PER_WORKER", "4")] masterDefaults)).num_threads : Int)
      ≠ (loadConfig [("THREADS_PER_WORKER", "4")] masterDefaults).threads_per_worker := by
  refine ⟨by decide, rfl, by decide⟩

/-- C6 (amended): load_config does store THREADS_PER_WORKER into the
configuration, but worker_main creates its pool with the literal thread
count 10, whatever the configuration says. -/
theorem C6_pool_always_ten_threads (cfg : ServerConfig) :
    (workerMainPool cfg).num_threads = 10 ∧
    workerMainPool cfg = createThreadPool 10 ∧
    (∀ v, (applyConfigLine cfg ("THREADS_PER_WORKER", v)).threads_per_worker
      = atoiModel v) := by
  refine ⟨rfl, rfl, ?_⟩
  intro v
  simp [applyConfigLine]

/-- C10: update_stats never writes active_connections, and starting from
the zero-initialised shared region every sequence of update_stats calls
leaves active_connections at 0, which is what every snapshot reports. -/
theorem C10_active_connections_frame :
    (∀ s status_code bytes ms,
      (updateStats s status_code bytes ms).active_connections
        = s.active_connections) ∧
    (∀ updates : List (Int × Int × Int),
      (updates.foldl (fun s u => updateStats s u.1 u.2.1 u.2.2)
        initialStats).active_connections = 0) := by
  refine ⟨?_, ?_⟩
  · intro s st b ms
    simp only [updateStats]
    split_ifs <;> rfl
  · intro updates
    have h : ∀ (l : List (Int × Int × Int)) (s : ServerStats),
        (l.foldl (fun s u => updateStats s u.1 u.2.1 u.2.2) s).active_connections
          = s.active_connections := by
      intro l
      induction l with
      | nil => intro s; rfl
      | cons u rest ih =>
        intro s
        rw [List.foldl_cons, ih]
        simp only [updateStats]
        split_ifs <;> rfl
    rw [h updates initialStats]
    rfl

end HttpServer
